import Mathlib

/-!
Verification of the dataset discovery/pruning/scan layer
(`cpp/src/arrow/dataset/dataset.h` and its specification).

The repository provides the C++ header `dataset.h` (class declarations and
their documentation comments) and the R test-suite `test-dataset.R`.  The
implementation files (`dataset.cc`, the expression simplifier, the scanner and
the discovery machinery) are not part of the sources, so those parts are
modelled from the specification, as flagged in the doc comment of each such
definition.  Everything that is visible in `dataset.h` (class shapes, the
inline body of `SimpleDataFragment::splittable`, nullability of
`scan_options`/`partition_expression`) is embedded directly from the header.
-/

/-- A typed scalar value flowing through the system.  Modelled from the spec:
the Schema/Expression value model (spec section 3); the C++ scalar classes are
not under src/.  `null` is the missing value. -/
inductive Datum where
  | null : Datum
  | boolean (b : Bool) : Datum
  | int (n : Int) : Datum
  | str (s : String) : Datum
deriving DecidableEq, Repr

/-- True exactly for the null datum. -/
def Datum.isNullD : Datum → Bool
  | .null => true
  | _ => false

/-- Comparison operators of the expression model (spec section 3:
equality and the four order comparisons). -/
inductive CompareOp where
  | eq
  | lt
  | le
  | gt
  | ge
deriving DecidableEq, Repr

/-- Strict order on data, defined on same-typed non-null operands. -/
def datumLt : Datum → Datum → Bool
  | .int m, .int n => decide (m < n)
  | .str s, .str t => decide (s < t)
  | _, _ => false

/-- Evaluate one comparison operator on two data.  A comparison with a null
operand is false (null admits no comparison information). -/
def compareDatum (op : CompareOp) (a b : Datum) : Bool :=
  if a.isNullD || b.isNullD then false
  else
    match op with
    | .eq => decide (a = b)
    | .lt => datumLt a b
    | .le => datumLt a b || decide (a = b)
    | .gt => datumLt b a
    | .ge => datumLt b a || decide (a = b)

/-- Modelled from the spec: the immutable predicate-tree Expression type of
spec section 3 (field reference, typed literal, comparison, membership in a
set, null-check, and logical AND/OR/NOT); the C++ `Expression` classes are not
under src/.  Filters compare a referenced field against scalar literals, as in
the R tests (for example `FieldExpression$create("dbl") == 8`), so a
comparison node carries the field name and the literal; `tru` and `fls` are
the boolean literal expressions that simplification can collapse to. -/
inductive Expression where
  | tru : Expression
  | fls : Expression
  | cmp (op : CompareOp) (field : String) (value : Datum) : Expression
  | inSet (field : String) (values : List Datum) : Expression
  | isNullE (field : String) : Expression
  | and_ (a b : Expression) : Expression
  | or_ (a b : Expression) : Expression
  | not_ (a : Expression) : Expression
deriving DecidableEq, Repr

/-- A row of data: an association list from field name to datum. -/
abbrev Row := List (String × Datum)

/-- First binding of a field name in an association list. -/
def lookupField : List (String × Datum) → String → Option Datum
  | [], _ => none
  | (m, d) :: rest, n => if m = n then some d else lookupField rest n

/-- The datum a row holds for a field; missing fields read as null. -/
def getField (r : Row) (n : String) : Datum :=
  (lookupField r n).getD Datum.null

/-- Membership of a datum in a list of data. -/
def containsDatum : List Datum → Datum → Bool
  | [], _ => false
  | d :: ds, x => if d = x then true else containsDatum ds x

/-- Modelled from the spec: row-level truth of an expression (the external
expression evaluator of spec section 6, used to state which rows a filter
admits); the C++ evaluation kernels are not under src/. -/
def Expression.eval : Expression → Row → Bool
  | .tru, _ => true
  | .fls, _ => false
  | .cmp op f v, r => compareDatum op (getField r f) v
  | .inSet f vs, r => !(getField r f).isNullD && containsDatum vs (getField r f)
  | .isNullE f, r => (getField r f).isNullD
  | .and_ a b, r => a.eval r && b.eval r
  | .or_ a b, r => a.eval r || b.eval r
  | .not_ a, r => !(a.eval r)

/-- The field names referenced by an expression. -/
def Expression.fieldRefs : Expression → List String
  | .tru => []
  | .fls => []
  | .cmp _ f _ => [f]
  | .inSet f _ => [f]
  | .isNullE f => [f]
  | .and_ a b => a.fieldRefs ++ b.fieldRefs
  | .or_ a b => a.fieldRefs ++ b.fieldRefs
  | .not_ a => a.fieldRefs

/-- Modelled from the spec: the fields an assumption pins to a constant, read
off the conjunction of equality comparisons it contains (spec section 4.1:
"when `assumption` pins a field to a constant"); the C++ simplifier is not
under src/. -/
def pinnedBindings : Expression → List (String × Datum)
  | .tru => []
  | .fls => []
  | .cmp .eq f v => [(f, v)]
  | .cmp .lt _ _ => []
  | .cmp .le _ _ => []
  | .cmp .gt _ _ => []
  | .cmp .ge _ _ => []
  | .inSet _ _ => []
  | .isNullE _ => []
  | .and_ a b => pinnedBindings a ++ pinnedBindings b
  | .or_ _ _ => []
  | .not_ _ => []

/-- Modelled from the spec: fold the nodes of an expression that reference a
pinned field into the boolean literal they evaluate to under the pinned
constants (spec section 4.1); the C++ simplifier is not under src/. -/
def substPinned (bs : List (String × Datum)) : Expression → Expression
  | .tru => .tru
  | .fls => .fls
  | .cmp op f v =>
    match lookupField bs f with
    | some d => if compareDatum op d v then .tru else .fls
    | none => .cmp op f v
  | .inSet f vs =>
    match lookupField bs f with
    | some d => if !d.isNullD && containsDatum vs d then .tru else .fls
    | none => .inSet f vs
  | .isNullE f =>
    match lookupField bs f with
    | some d => if d.isNullD then .tru else .fls
    | none => .isNullE f
  | .and_ a b => .and_ (substPinned bs a) (substPinned bs b)
  | .or_ a b => .or_ (substPinned bs a) (substPinned bs b)
  | .not_ a => .not_ (substPinned bs a)

/-- Smart conjunction used by constant folding. -/
def mkAnd : Expression → Expression → Expression
  | .fls, _ => .fls
  | .tru, b => b
  | _, .fls => .fls
  | a, .tru => a
  | a, b => Expression.and_ a b

/-- Smart disjunction used by constant folding. -/
def mkOr : Expression → Expression → Expression
  | .tru, _ => .tru
  | .fls, b => b
  | _, .tru => .tru
  | a, .fls => a
  | a, b => .or_ a b

/-- Smart negation used by constant folding. -/
def mkNot : Expression → Expression
  | .tru => .fls
  | .fls => .tru
  | a => .not_ a

/-- Modelled from the spec: conservative constant folding of the logical
connectives after pinned fields were substituted (spec section 4.1: fold to
true/false when statically determinable, otherwise leave the residual
expression unchanged); the C++ simplifier is not under src/. -/
def foldConst : Expression → Expression
  | .tru => .tru
  | .fls => .fls
  | .cmp op f v => .cmp op f v
  | .inSet f vs => .inSet f vs
  | .isNullE f => .isNullE f
  | .and_ a b => mkAnd (foldConst a) (foldConst b)
  | .or_ a b => mkOr (foldConst a) (foldConst b)
  | .not_ a => mkNot (foldConst a)

/-- Modelled from the spec: `Simplify` (spec sections 3 and 4.1) — rewrite
`filter` assuming `given` holds, by folding the sub-expressions whose field
the assumption pins to a constant and then constant-folding the connectives;
the C++ `Expression::Assume` implementation is not under src/. -/
def assumeE (filter given : Expression) : Expression :=
  foldConst (substPinned (pinnedBindings given) filter)

/-- An expression is statically false when simplification collapsed it to the
false literal (the pruning test of spec section 4.3). -/
def isStaticallyFalse : Expression → Bool
  | .fls => true
  | _ => false

/-- Scan options carried through a scan, from `dataset.h` (the `ScanOptions`
referenced at lines 47-51 and 93-119): the residual filter and the requested
projection (the concrete C++ `ScanOptions` struct is declared outside the
given header; its filter/projection content is taken from spec section 3). -/
structure ScanOptions where
  filter : Expression
  projection : List String
deriving DecidableEq, Repr

/-- A record batch: the rows it holds. -/
abbrev RecordBatch := List Row

/-- A granular piece of a Dataset, from `dataset.h` lines 37-71.  Both
accessors may return null (`dataset.h` lines 47-51 and 55-59), embedded here
as `Option` fields. -/
structure DataFragment where
  scan_options : Option ScanOptions
  partition_expression : Option Expression
deriving DecidableEq, Repr

/-- A trivial DataFragment yielding ScanTasks out of a fixed set of
RecordBatches, from `dataset.h` lines 73-86: constructed from the record
batches and the scan options. -/
structure SimpleDataFragment where
  record_batches : List RecordBatch
  scan_options : Option ScanOptions
deriving DecidableEq, Repr

/-- From `dataset.h` line 82: `bool splittable() const override { return
false; }` — the constant false, whatever the fragment holds. -/
def SimpleDataFragment.splittable (_f : SimpleDataFragment) : Bool := false

/-- Modelled from the spec: the rows produced by scanning a
`SimpleDataFragment` (spec section 4.2: the fragment applies its residual
filter and its projection itself; the header's doc comment at `dataset.h`
lines 47-50: null scan options mean no filtering and no schema reconciliation
are performed).  The C++ `SimpleDataFragment::Scan` body is not under src/. -/
def SimpleDataFragment.ScanRows (f : SimpleDataFragment) : List Row :=
  match f.scan_options with
  | none => f.record_batches.flatten
  | some o =>
    ((f.record_batches.flatten).filter (fun r => o.filter.eval r)).map
      (fun r => o.projection.map (fun n => (n, getField r n)))

/-- The DataSource hierarchy of `dataset.h` lines 88-149, as a closed variant
set (spec section 9 prescribes exactly these implementers): a
`SimpleDataSource` holding a flat vector of fragments (lines 124-136) and a
recursive `TreeDataSource` holding child sources (lines 138-149); both carry
the protected optional partition expression of the base class (lines 97-101
and 121). -/
inductive DataSource where
  | simple (partition_expression : Option Expression) (fragments : List DataFragment) : DataSource
  | tree (partition_expression : Option Expression) (children : List DataSource) : DataSource

/-- Accessor from `dataset.h` lines 97-101: the expression true for all data
viewed by this DataSource; may be null, meaning no information is
available. -/
def DataSource.partition_expression : DataSource → Option Expression
  | .simple p _ => p
  | .tree p _ => p

/-- The scan options obtained by simplifying the filter under the partition
expression, keeping the projection. -/
def simplifiedScanOptions (opts : ScanOptions) (p : Expression) : ScanOptions :=
  ScanOptions.mk (assumeE opts.filter p) opts.projection

/-- Modelled from the spec: `DataSource::AssumePartitionExpression`
(declared at `dataset.h` lines 115-119; its body is not under src/).  Per the
header doc comment and spec section 4.3: assume the source's partition
expression holds for all yielded fragments, producing simplified scan
options; report `none` (the C++ `false`) when the filter is not satisfiable
in this DataSource.  A null partition expression gives no information and the
options pass through unchanged. -/
def DataSource.AssumePartitionExpression (src : DataSource) (opts : ScanOptions) :
    Option ScanOptions :=
  match src.partition_expression with
  | none => some opts
  | some p =>
    if isStaticallyFalse (assumeE opts.filter p) then none
    else some (simplifiedScanOptions opts p)

mutual

/-- Modelled from the spec: `DataSource::GetFragments` (declared at
`dataset.h` lines 93-95; its body is not under src/).  Per spec section 4.3
it first calls `AssumePartitionExpression`; a statically false result prunes
the source, otherwise the source-specific `GetFragmentsImpl` runs on the
simplified options. -/
def DataSource.GetFragments (src : DataSource) (opts : ScanOptions) : List DataFragment :=
  match src.AssumePartitionExpression opts with
  | none => []
  | some simplified => src.GetFragmentsImpl simplified

/-- Modelled from the spec: the source-specific `GetFragmentsImpl` bodies
(declared at `dataset.h` lines 130 and 143; not under src/).  Per spec
section 4.3 a flat source forwards its fragments and a tree source unions the
fragments of its children, each child re-applying its own assumption test. -/
def DataSource.GetFragmentsImpl (src : DataSource) (opts : ScanOptions) : List DataFragment :=
  match src with
  | .simple _ frags => frags
  | .tree _ children => childFragments children opts

/-- Fragments contributed by a list of child sources, in order. -/
def childFragments : List DataSource → ScanOptions → List DataFragment
  | [], _ => []
  | c :: cs, opts => c.GetFragments opts ++ childFragments cs opts

end

/-- Modelled from the spec: a file as discovery sees it (spec sections 4.4
and 6; the filesystem and discovery classes are not under src/): the relative
directory segments under the dataset root, the file name, and the rows the
physical reader would produce for it. -/
structure FSFile where
  dirSegments : List String
  name : String
  rows : List Row
deriving DecidableEq, Repr

/-- Path separator. -/
def slash : String := "/"

/-- The file's path relative to the dataset root. -/
def FSFile.path (f : FSFile) : String :=
  String.intercalate slash (f.dirSegments ++ [f.name])

/-- Modelled from the spec: the physical reader capability of spec section 6
(`Read(path, ...) -> sequence of row batches`), opaque to this layer: it
yields the file's rows. -/
def readFile (f : FSFile) : List Row :=
  f.rows

/-- Decimal value of a digit character, read off its code point. -/
def digitVal (c : Char) : Option Nat :=
  if c.isDigit then some (c.toNat - 48) else none

/-- Decimal reading of a character list, with an accumulator. -/
def parseNatAux : List Char → Nat → Option Nat
  | [], acc => some acc
  | c :: cs, acc =>
    match digitVal c with
    | some d => parseNatAux cs (acc * 10 + d)
    | none => none

/-- Decimal reading of a non-empty all-digit string. -/
def parseNatStr (s : String) : Option Nat :=
  match s.data with
  | [] => none
  | cs => parseNatAux cs 0

/-- Modelled from the spec: parsing of a partition value out of a directory
name (spec section 4.4); an all-digit segment is an integer value, anything
else stays a string. -/
def parsePartitionValue (s : String) : Datum :=
  match parseNatStr s with
  | some n => .int (Int.ofNat n)
  | none => .str s

/-- Modelled from the spec: the schema-ordered partition scheme (spec
section 4.4 and section 3, `PartitionScheme`): positional path segments map
to the declared fields in order, giving the field-to-value assignment of a
file. -/
def schemaPartitionAssignment (fields : List String) (dirs : List String) :
    List (String × Datum) :=
  List.zip fields (dirs.map parsePartitionValue)

/-- The partition expression equivalent to a field-to-value assignment: the
conjunction of the equalities it pins. -/
def exprOfAssignment : List (String × Datum) → Expression
  | [] => .tru
  | (n, d) :: rest => .and_ (.cmp .eq n d) (exprOfAssignment rest)

/-- Modelled from the spec: a file-backed fragment produced by discovery
(spec sections 3 and 4.4; the `FileSystemDataSource` machinery is not under
src/): the file plus the partition assignment extracted from its path. -/
structure FileFragment where
  file : FSFile
  assignment : List (String × Datum)
deriving DecidableEq, Repr

/-- The partition expression of a file-backed fragment. -/
def FileFragment.partitionExpr (fr : FileFragment) : Expression :=
  exprOfAssignment fr.assignment

/-- Modelled from the spec: the Dataset handle produced by `Open` (spec
sections 3 and 6): the discovered fragments in discovery order and the
unified logical schema (field names); the C++ `Dataset`/discovery bodies are
not under src/. -/
structure DiscoveredDataset where
  fragments : List FileFragment
  schema : List String
deriving DecidableEq, Repr

/-- Modelled from the spec: the physical schema learned from one
representative file (spec section 4.4: `Inspect` reads only enough to learn
each physical file's schema): the field names of the first row of the first
file. -/
def inferPhysicalSchema (files : List FSFile) : List String :=
  match files with
  | [] => []
  | f :: _ => (f.rows.headD []).map Prod.fst

/-- Modelled from the spec: `Open(root_path, partition_spec)` (spec
section 6) with a schema-ordered partition declaration: every file becomes a
fragment carrying the assignment its directory segments induce, and the
unified schema is the physical schema of a representative file followed by
the partition fields; `Open`'s C++ implementation is not under src/. -/
def OpenDataset (files : List FSFile) (partitionFields : List String) : DiscoveredDataset :=
  DiscoveredDataset.mk
    (files.map (fun f => FileFragment.mk f (schemaPartitionAssignment partitionFields f.dirSegments)))
    (inferPhysicalSchema files ++ partitionFields)

/-- Modelled from the spec: schema reconciliation of one row (spec
section 4.4): the partition assignment's values take priority over
same-named physical columns, remaining physical columns pass through. -/
def reconcileRow (a : List (String × Datum)) (r : Row) : Row :=
  a ++ r.filter (fun kv => (lookupField a kv.fst).isNone)

/-- Project a row onto an ordered list of output column names. -/
def projectRow (proj : List String) (r : Row) : Row :=
  proj.map (fun n => (n, getField r n))

/-- Modelled from the spec: scanning one file-backed fragment under a filter
(spec sections 4.2 and 4.3): simplify the filter under the fragment's
partition expression; a statically false residual prunes the fragment and
the reader is never invoked (`none`); otherwise the reader's rows are
reconciled with the partition assignment and the residual filter is applied.
The scanner implementation is not under src/. -/
def scanFragment (flt : Expression) (fr : FileFragment) : Option (List Row) :=
  let residual := assumeE flt fr.partitionExpr
  if isStaticallyFalse residual then none
  else
    some (((readFile fr.file).map (reconcileRow fr.assignment)).filter
      (fun r => residual.eval r))

/-- Modelled from the spec: the instrumented sequential scan of spec
sections 4.5 and 8: fragments are visited in discovery order; each surviving
fragment's rows are projected and concatenated, and the path of every file
the reader was invoked on is recorded (the instrumented reader call-count of
the end-to-end scenario).  The scanner implementation is not under src/. -/
def ScanWithLog : Expression → List String → List FileFragment → List Row × List String
  | _, _, [] => ([], [])
  | flt, proj, fr :: rest =>
    let tail := ScanWithLog flt proj rest
    match scanFragment flt fr with
    | none => tail
    | some rs => (rs.map (projectRow proj) ++ tail.fst, fr.file.path :: tail.snd)

/-- Validation error for a filter naming an unknown column. -/
def errUnknownFilterColumn : String := "filter references unknown column"

/-- Validation error for a projection naming an unknown column. -/
def errUnknownProjectionColumn : String := "projection references unknown column"

/-- Modelled from the spec: the transient ScannerBuilder (spec sections 3 and
4.5), carrying the dataset, the requested projection and the filter; its C++
implementation is not under src/. -/
structure ScannerBuilder where
  dataset : DiscoveredDataset
  projection : List String
  filter : Expression
deriving DecidableEq, Repr

/-- Modelled from the spec: `Dataset.NewScan()` (spec section 4.5): a builder
seeded with the dataset's schema as default projection and the no-op filter. -/
def NewScan (ds : DiscoveredDataset) : ScannerBuilder :=
  ScannerBuilder.mk ds ds.schema Expression.tru

/-- Modelled from the spec: `ScannerBuilder.Filter(expression)` (spec
section 4.5): every field reference of the expression must resolve against
the dataset's schema; an unknown column is a build-time validation error.
The C++ implementation is not under src/. -/
def ScannerBuilder.Filter (sb : ScannerBuilder) (e : Expression) : Except String ScannerBuilder :=
  if e.fieldRefs.all (fun n => sb.dataset.schema.contains n) then
    Except.ok (ScannerBuilder.mk sb.dataset sb.projection e)
  else Except.error errUnknownFilterColumn

/-- Modelled from the spec: `ScannerBuilder.Project(names)` (spec
section 4.5): every projected name must resolve against the dataset's
schema; an unknown name is a build-time validation error.  The C++
implementation is not under src/. -/
def ScannerBuilder.Project (sb : ScannerBuilder) (names : List String) :
    Except String ScannerBuilder :=
  if names.all (fun n => sb.dataset.schema.contains n) then
    Except.ok (ScannerBuilder.mk sb.dataset names sb.filter)
  else Except.error errUnknownProjectionColumn

/-- Modelled from the spec: the frozen, validated Scanner (spec sections 3
and 4.5); its C++ implementation is not under src/. -/
structure Scanner where
  fragments : List FileFragment
  projection : List String
  filter : Expression
deriving DecidableEq, Repr

/-- Modelled from the spec: `ScannerBuilder.Finish()` (spec section 4.5):
freeze the builder into a Scanner over the dataset's fragments. -/
def ScannerBuilder.Finish (sb : ScannerBuilder) : Except String Scanner :=
  Except.ok (Scanner.mk sb.dataset.fragments sb.projection sb.filter)

/-- Modelled from the spec: `Scanner.ToTable()` (spec section 4.5): execute
all fragment scans and concatenate their rows in discovery order, returning
the materialized table together with the instrumented list of files the
reader opened. -/
def Scanner.ToTable (s : Scanner) : List Row × List String :=
  ScanWithLog s.filter s.projection s.fragments

/-- Modelled from the spec: the rows fragment number `i` contributes to the
table (its scan task's projected result; empty when the fragment is pruned
or the index is out of range).  Spec section 5's execution model runs these
tasks in any completion order. -/
def taskResult (flt : Expression) (proj : List String) (frags : List FileFragment)
    (i : Nat) : List Row :=
  match frags[i]? with
  | none => []
  | some fr =>
    match scanFragment flt fr with
    | none => []
    | some rs => rs.map (projectRow proj)

/-- First result recorded for a task index in a completion log. -/
def lookupTask : List (Nat × List Row) → Nat → Option (List Row)
  | [], _ => none
  | (j, rs) :: rest, i => if j = i then some rs else lookupTask rest i

/-- Modelled from the spec: `ToTable` under concurrent fragment execution
(spec section 5): tasks complete in the order given by `schedule`; completed
results are then re-sequenced by fragment discovery order before
concatenation.  The execution substrate is not under src/. -/
def ToTablePar (flt : Expression) (proj : List String) (frags : List FileFragment)
    (schedule : List Nat) : List Row :=
  ((List.range frags.length).map
    (fun i =>
      (lookupTask (schedule.map (fun j => (j, taskResult flt proj frags j))) i).getD [])).flatten

/-- Modelled from the spec: the fragment-level pruning test (spec glossary,
"Pruning"): a fragment or source with partition information is pruned under
a filter exactly when the simplified filter is statically false; a null
partition expression means no information, so no pruning ever applies. -/
def prunedUnder (pe : Option Expression) (flt : Expression) : Bool :=
  match pe with
  | none => false
  | some p => isStaticallyFalse (assumeE flt p)

/-- An equality comparison only holds between equal data. -/
lemma compareDatum_eq_true {a b : Datum} (h : compareDatum CompareOp.eq a b = true) :
    a = b := by
  simp only [compareDatum] at h
  split at h
  · exact absurd h (by simp)
  · exact of_decide_eq_true h

/-- A binding found in the left part of an appended association list is found
in the whole list. -/
lemma lookupField_append_left {l1 l2 : List (String × Datum)} {n : String} {d : Datum}
    (h : lookupField l1 n = some d) : lookupField (l1 ++ l2) n = some d := by
  induction l1 with
  | nil => simp [lookupField] at h
  | cons kv rest ih =>
    obtain ⟨m, dv⟩ := kv
    by_cases hm : m = n
    · simp [lookupField, hm] at h ⊢
      exact h
    · simp only [List.cons_append, lookupField, if_neg hm] at h ⊢
      exact ih h

/-- A binding found in an appended association list comes from one of the two
parts. -/
lemma lookupField_append_cases {l1 l2 : List (String × Datum)} {n : String} {d : Datum}
    (h : lookupField (l1 ++ l2) n = some d) :
    lookupField l1 n = some d ∨ lookupField l2 n = some d := by
  induction l1 with
  | nil => exact Or.inr h
  | cons kv rest ih =>
    obtain ⟨m, dv⟩ := kv
    by_cases hm : m = n
    · left
      simp only [List.cons_append, lookupField, if_pos hm] at h ⊢
      exact h
    · simp only [List.cons_append, lookupField, if_neg hm] at h ⊢
      exact ih h

/-- Every field the assumption pins really carries the pinned constant on any
row satisfying the assumption. -/
lemma bindings_sound :
    ∀ (given : Expression) (row : Row), given.eval row = true →
      ∀ n d, lookupField (pinnedBindings given) n = some d → getField row n = d := by
  intro given
  induction given with
  | tru => intro row _ n d h; simp [pinnedBindings, lookupField] at h
  | fls => intro row _ n d h; simp [pinnedBindings, lookupField] at h
  | cmp op f v =>
    intro row hev n d h
    cases op with
    | eq =>
      simp only [pinnedBindings, lookupField] at h
      split at h
      · rename_i hfn
        injection h with hvd
        subst hvd
        have hcv : compareDatum CompareOp.eq (getField row f) v = true := by
          simpa [Expression.eval] using hev
        rw [← hfn]
        exact compareDatum_eq_true hcv
      · simp at h
    | lt => simp [pinnedBindings, lookupField] at h
    | le => simp [pinnedBindings, lookupField] at h
    | gt => simp [pinnedBindings, lookupField] at h
    | ge => simp [pinnedBindings, lookupField] at h
  | inSet f vs => intro row _ n d h; simp [pinnedBindings, lookupField] at h
  | isNullE f => intro row _ n d h; simp [pinnedBindings, lookupField] at h
  | and_ a b iha ihb =>
    intro row hev n d h
    have hab : a.eval row = true ∧ b.eval row = true := by
      simpa [Expression.eval, Bool.and_eq_true] using hev
    simp only [pinnedBindings] at h
    rcases lookupField_append_cases h with h1 | h2
    · exact iha row hab.left n d h1
    · exact ihb row hab.right n d h2
  | or_ a b iha ihb => intro row _ n d h; simp [pinnedBindings, lookupField] at h
  | not_ a iha => intro row _ n d h; simp [pinnedBindings, lookupField] at h

/-- Substituting pinned constants preserves row-level truth on any row on
which the pinned bindings hold. -/
lemma substPinned_eval (bs : List (String × Datum)) (row : Row)
    (hb : ∀ n d, lookupField bs n = some d → getField row n = d) :
    ∀ e : Expression, (substPinned bs e).eval row = e.eval row := by
  intro e
  induction e with
  | tru => rfl
  | fls => rfl
  | cmp op f v =>
    cases hl : lookupField bs f with
    | none => simp [substPinned, hl]
    | some d =>
      have hf := hb f d hl
      cases hc : compareDatum op d v <;>
        simp [substPinned, hl, hc, Expression.eval, hf]
  | inSet f vs =>
    cases hl : lookupField bs f with
    | none => simp [substPinned, hl]
    | some d =>
      have hf := hb f d hl
      cases hc : (!d.isNullD && containsDatum vs d) <;>
        simp [substPinned, hl, hc, Expression.eval, hf]
  | isNullE f =>
    cases hl : lookupField bs f with
    | none => simp [substPinned, hl]
    | some d =>
      have hf := hb f d hl
      cases hc : d.isNullD <;> simp [substPinned, hl, hc, Expression.eval, hf]
  | and_ a b iha ihb => simp [substPinned, Expression.eval, iha, ihb]
  | or_ a b iha ihb => simp [substPinned, Expression.eval, iha, ihb]
  | not_ a iha => simp [substPinned, Expression.eval, iha]

/-- The smart conjunction evaluates as the conjunction. -/
lemma mkAnd_eval (a b : Expression) (row : Row) :
    (mkAnd a b).eval row = (a.eval row && b.eval row) := by
  cases a <;> cases b <;> simp [mkAnd, Expression.eval]

/-- The smart disjunction evaluates as the disjunction. -/
lemma mkOr_eval (a b : Expression) (row : Row) :
    (mkOr a b).eval row = (a.eval row || b.eval row) := by
  cases a <;> cases b <;> simp [mkOr, Expression.eval]

/-- The smart negation evaluates as the negation. -/
lemma mkNot_eval (a : Expression) (row : Row) :
    (mkNot a).eval row = !(a.eval row) := by
  cases a <;> simp [mkNot, Expression.eval]

/-- Constant folding preserves row-level truth. -/
lemma foldConst_eval (e : Expression) (row : Row) :
    (foldConst e).eval row = e.eval row := by
  induction e with
  | tru => rfl
  | fls => rfl
  | cmp op f v => rfl
  | inSet f vs => rfl
  | isNullE f => rfl
  | and_ a b iha ihb => simp [foldConst, mkAnd_eval, Expression.eval, iha, ihb]
  | or_ a b iha ihb => simp [foldConst, mkOr_eval, Expression.eval, iha, ihb]
  | not_ a iha => simp [foldConst, mkNot_eval, Expression.eval, iha]

/-- Correctness of simplification under an assumption: on every row
satisfying the assumption, the simplified filter agrees with the original
filter.  This is the load-bearing soundness property of spec section 4.1. -/
lemma assumeE_eval (f p : Expression) (row : Row) (hp : p.eval row = true) :
    (assumeE f p).eval row = f.eval row := by
  unfold assumeE
  rw [foldConst_eval]
  exact substPinned_eval _ _ (bindings_sound p row hp) f

/-- Static falseness characterized. -/
lemma staticallyFalse_iff (e : Expression) :
    isStaticallyFalse e = true ↔ e = Expression.fls := by
  cases e <;> simp [isStaticallyFalse]

/-- Pruning soundness at the expression level: when some row satisfies both
the partition expression and the filter, simplification cannot return the
static false. -/
lemma not_staticallyFalse_of_sat {f p : Expression}
    (h : ∃ row, p.eval row = true ∧ f.eval row = true) :
    isStaticallyFalse (assumeE f p) = false := by
  obtain ⟨row, hp, hf⟩ := h
  cases hsf : isStaticallyFalse (assumeE f p)
  · rfl
  · exfalso
    have hfls := (staticallyFalse_iff _).1 hsf
    have heq := assumeE_eval f p row hp
    rw [hfls] at heq
    simp [Expression.eval, hf] at heq

/-- A completion log built from a schedule holds each scheduled task's
result under its own index. -/
lemma lookupTask_map (g : Nat → List Row) :
    ∀ (schedule : List Nat) (i : Nat), i ∈ schedule →
      lookupTask (schedule.map (fun j => (j, g j))) i = some (g i) := by
  intro schedule
  induction schedule with
  | nil => intro i hi; cases hi
  | cons j rest ih =>
    intro i hi
    by_cases hj : j = i
    · subst hj
      simp [lookupTask]
    · have hrest : i ∈ rest := by
        rcases List.mem_cons.1 hi with h | h
        · exact absurd h.symm hj
        · exact h
      simp only [List.map_cons, lookupTask, if_neg hj]
      exact ih i hrest

/-- A task on the tail of the fragment list is the successor task on the
whole list. -/
lemma taskResult_cons_succ (flt : Expression) (proj : List String)
    (fr : FileFragment) (rest : List FileFragment) (i : Nat) :
    taskResult flt proj (fr :: rest) (i + 1) = taskResult flt proj rest i := by
  simp [taskResult]

/-- Concatenating the task results in discovery order gives exactly the
sequential instrumented scan's table. -/
lemma seq_flatten (flt : Expression) (proj : List String) :
    ∀ frags : List FileFragment,
      ((List.range frags.length).map (taskResult flt proj frags)).flatten
        = (ScanWithLog flt proj frags).fst := by
  intro frags
  induction frags with
  | nil => simp [ScanWithLog]
  | cons fr rest ih =>
    rw [List.length_cons, List.range_succ_eq_map]
    simp only [List.map_cons, List.map_map, List.flatten_cons]
    have hcomp :
        (List.range rest.length).map (taskResult flt proj (fr :: rest) ∘ Nat.succ)
          = (List.range rest.length).map (taskResult flt proj rest) := by
      apply List.map_congr_left
      intro i _
      simp only [Function.comp_apply]
      exact taskResult_cons_succ flt proj fr rest i
    rw [hcomp, ih]
    cases hs : scanFragment flt fr with
    | none => simp [taskResult, hs, ScanWithLog]
    | some rs => simp [taskResult, hs, ScanWithLog]

/-- Re-sequencing any complete completion order reproduces the sequential
table. -/
lemma par_eq_seq (flt : Expression) (proj : List String) (frags : List FileFragment)
    (schedule : List Nat) (hperm : schedule.Perm (List.range frags.length)) :
    ToTablePar flt proj frags schedule = (ScanWithLog flt proj frags).fst := by
  unfold ToTablePar
  have hmap :
      (List.range frags.length).map
          (fun i => (lookupTask (schedule.map (fun j => (j, taskResult flt proj frags j))) i).getD [])
        = (List.range frags.length).map (taskResult flt proj frags) := by
    apply List.map_congr_left
    intro i hi
    have hmem : i ∈ schedule := hperm.mem_iff.2 hi
    rw [lookupTask_map (taskResult flt proj frags) schedule i hmem]
    rfl
  rw [hmap]
  exact seq_flatten flt proj frags

/-- Column name of the physical integer column of the scenario files. -/
def colInt : String := "int"

/-- Column name of the physical character column of the scenario files. -/
def colChr : String := "chr"

/-- Name of the partition field of the end-to-end scenario. -/
def colPart : String := "part"

/-- The character values of the first scenario file, in row order. -/
def letters1 : List String := ["a", "b", "c", "d", "e", "f", "g", "h", "i", "j"]

/-- The character values of the second scenario file, in row order. -/
def letters2 : List String := ["j", "i", "h", "g", "f", "e", "d", "c", "b", "a"]

/-- The integer values of the first scenario file. -/
def ints1 : List Int := [1, 2, 3, 4, 5, 6, 7, 8, 9, 10]

/-- The integer values of the second scenario file. -/
def ints2 : List Int := [101, 102, 103, 104, 105, 106, 107, 108, 109, 110]

/-- The 10 rows of the file under root/1/ of the end-to-end scenario (the
`df1` of the R test, restricted to an integer and a character column). -/
def df1Rows : List Row :=
  (ints1.zip letters1).map (fun p => [(colInt, Datum.int p.fst), (colChr, Datum.str p.snd)])

/-- The 10 rows of the file under root/2/ of the end-to-end scenario. -/
def df2Rows : List Row :=
  (ints2.zip letters2).map (fun p => [(colInt, Datum.int p.fst), (colChr, Datum.str p.snd)])

/-- Name of the first scenario file. -/
def fileName1 : String := "file1.parquet"

/-- Name of the second scenario file. -/
def fileName2 : String := "file2.parquet"

/-- The file under root/1/ of the scenario. -/
def file1 : FSFile := FSFile.mk ["1"] fileName1 df1Rows

/-- The file under root/2/ of the scenario. -/
def file2 : FSFile := FSFile.mk ["2"] fileName2 df2Rows

/-- The two discovered scenario files, in discovery order. -/
def scenarioFiles : List FSFile := [file1, file2]

/-- The scenario dataset: `Open(root, partition = part)`. -/
def scenarioDataset : DiscoveredDataset := OpenDataset scenarioFiles [colPart]

/-- The scenario filter `part == 1`. -/
def partFilter : Expression := .cmp .eq colPart (.int 1)

/-- Relative path of the file the scenario scan must open. -/
def file1Path : String := "1/file1.parquet"

/-- Example field name used by concrete instances. -/
def fieldX : String := "x"

/-- Example partition expression pinning the field to 2. -/
def pX2 : Expression := .cmp .eq fieldX (.int 2)

/-- Example filter pinning the field to 1. -/
def fX1 : Expression := .cmp .eq fieldX (.int 1)

/-- Example scan options whose filter is `x = 1`. -/
def optsX1 : ScanOptions := ScanOptions.mk fX1 []

/-- Example opaque fragment. -/
def fragX : DataFragment := DataFragment.mk none none

/-- Example row with `x = 1`. -/
def rowX1 : Row := [(fieldX, Datum.int 1)]

/-- Example row with `x = 2`. -/
def rowX2 : Row := [(fieldX, Datum.int 2)]

/-- C1, counterexample to the claim as stated: with filter `x = 1` and source
partition expression `x = 2`, simplifying the negated filter under the
partition expression gives `true`, which is not statically false, yet
`GetFragments` prunes the source and drops its non-empty fragment list.  The
pruning test simplifies the filter itself, not its negation. -/
theorem c1_counterexample :
    isStaticallyFalse (assumeE (Expression.not_ fX1) pX2) = false ∧
    (DataSource.simple (some pX2) [fragX]).GetFragments optsX1 = [] ∧
    [fragX] ≠ ([] : List DataFragment) := by
  refine ⟨by decide, ?_, by decide⟩
  simp [DataSource.GetFragments, DataSource.AssumePartitionExpression,
    DataSource.partition_expression]
  decide

/-- C1, amended: for every filter and every source partition expression `p`,
if simplifying the filter under the assumption `p` does not yield a
statically false result — in particular whenever some row can satisfy both
`p` and the filter — then `GetFragments` still visits the source and yields
its fragments (a flat source yields its fragment list, a tree source yields
its children's fragments under the simplified options): pruning never drops
a source whose data could still match the filter. -/
theorem c1_pruning_soundness :
    ∀ (p : Expression) (opts : ScanOptions) (frags : List DataFragment)
      (children : List DataSource),
      (isStaticallyFalse (assumeE opts.filter p) = false ∨
        ∃ row, p.eval row = true ∧ opts.filter.eval row = true) →
      (DataSource.simple (some p) frags).GetFragments opts = frags ∧
      (DataSource.tree (some p) children).GetFragments opts =
        childFragments children (simplifiedScanOptions opts p) := by
  intro p opts frags children h
  have hns : isStaticallyFalse (assumeE opts.filter p) = false := by
    rcases h with h | hsat
    · exact h
    · exact not_staticallyFalse_of_sat hsat
  constructor <;>
    simp [DataSource.GetFragments, DataSource.AssumePartitionExpression,
      DataSource.partition_expression, hns, DataSource.GetFragmentsImpl]

/-- Witness for c1_pruning_soundness: filter `x = 1` against partition
expression `x = 1`. -/
theorem c1_pruning_soundness_witness :
    isStaticallyFalse (assumeE optsX1.filter fX1) = false ∧
    ((DataSource.simple (some fX1) [fragX]).GetFragments optsX1 = [fragX] ∧
      (DataSource.tree (some fX1) []).GetFragments optsX1 =
        childFragments [] (simplifiedScanOptions optsX1 fX1)) :=
  ⟨by decide, c1_pruning_soundness fX1 optsX1 [fragX] [] (Or.inl (by decide))⟩

/-- C2: when simplifying the filter under a source's partition expression is
statically false, `GetFragments` reports the source unsatisfiable
(`AssumePartitionExpression` yields none) and the source contributes zero
fragments — for a tree source this holds for every list of children, so the
subtree is cut off without visiting any child. -/
theorem c2_statically_false_prunes :
    ∀ (p : Expression) (opts : ScanOptions) (frags : List DataFragment)
      (children : List DataSource),
      isStaticallyFalse (assumeE opts.filter p) = true →
      (DataSource.tree (some p) children).AssumePartitionExpression opts = none ∧
      (DataSource.tree (some p) children).GetFragments opts = [] ∧
      (DataSource.simple (some p) frags).GetFragments opts = [] := by
  intro p opts frags children h
  refine ⟨?_, ?_, ?_⟩ <;>
    simp [DataSource.GetFragments, DataSource.AssumePartitionExpression,
      DataSource.partition_expression, h]

/-- Witness for c2_statically_false_prunes: filter `x = 1` against partition
expression `x = 2`, with a non-empty subtree. -/
theorem c2_statically_false_prunes_witness :
    isStaticallyFalse (assumeE optsX1.filter pX2) = true ∧
    ((DataSource.tree (some pX2) [DataSource.simple none [fragX]]).AssumePartitionExpression
        optsX1 = none ∧
      (DataSource.tree (some pX2) [DataSource.simple none [fragX]]).GetFragments optsX1 = [] ∧
      (DataSource.simple (some pX2) [fragX]).GetFragments optsX1 = []) :=
  ⟨by decide,
    c2_statically_false_prunes pX2 optsX1 [fragX] [DataSource.simple none [fragX]] (by decide)⟩

/-- C3, counterexample to the claim as stated: with partition expression
`x = 1` and input filter `x = 1`, `AssumePartitionExpression` simplifies the
filter to `true`; the row `x = 2` is admitted by the simplified options but
not by the input options, so the simplified options are not "at least as
restrictive" on all rows. -/
theorem c3_counterexample :
    (DataSource.simple (some fX1) []).AssumePartitionExpression optsX1 =
      some (ScanOptions.mk Expression.tru []) ∧
    Expression.eval (ScanOptions.mk Expression.tru []).filter rowX2 = true ∧
    Expression.eval optsX1.filter rowX2 = false := by
  decide

/-- C3, amended: `AssumePartitionExpression` loses no restriction on the data
the source can actually yield — on every row satisfying the source's
partition expression the simplified options admit exactly the rows the input
options admit (on rows outside the partition the simplified filter may be
weaker, as when it collapses to true) — and unsatisfiability is decided from
the partition expression and the options alone, independently of the
source's fragments, which are never enumerated. -/
theorem c3_assume_restrictive :
    (∀ (src : DataSource) (p : Expression) (opts simplified : ScanOptions),
        src.partition_expression = some p →
        src.AssumePartitionExpression opts = some simplified →
        ∀ row, p.eval row = true →
          simplified.filter.eval row = opts.filter.eval row) ∧
    (∀ (pe : Option Expression) (frags frags' : List DataFragment) (opts : ScanOptions),
        (DataSource.simple pe frags).AssumePartitionExpression opts =
          (DataSource.simple pe frags').AssumePartitionExpression opts) := by
  constructor
  · intro src p opts simplified hpe h row hrow
    simp only [DataSource.AssumePartitionExpression, hpe] at h
    split at h
    · exact absurd h (by simp)
    · injection h with h
      subst h
      simp only [simplifiedScanOptions]
      exact assumeE_eval opts.filter p row hrow
  · intro pe frags frags' opts
    rfl

/-- Witness for c3_assume_restrictive: partition expression and filter both
`x = 1`; on the row `x = 1` the simplified filter (`true`) agrees with the
input filter. -/
theorem c3_assume_restrictive_witness :
    (DataSource.simple (some fX1) []).partition_expression = some fX1 ∧
    (DataSource.simple (some fX1) []).AssumePartitionExpression optsX1 =
      some (ScanOptions.mk Expression.tru []) ∧
    Expression.eval fX1 rowX1 = true ∧
    Expression.eval (ScanOptions.mk Expression.tru []).filter rowX1 =
      Expression.eval optsX1.filter rowX1 :=
  ⟨rfl, by decide, by decide,
    c3_assume_restrictive.1 (DataSource.simple (some fX1) []) fX1 optsX1
      (ScanOptions.mk Expression.tru []) rfl (by decide) rowX1 (by decide)⟩

/-- C4: the end-to-end scenario — two files of 10 rows under root/1/ and
root/2/, schema-ordered partition field `part` read from the directory,
`Open` then `Filter(part == 1)` then `ToTable()` returns exactly the 10 rows
of root/1/ with a `part` column of all 1s, and the instrumented reader log
shows exactly one file opened, never root/2/'s file. -/
theorem c4_end_to_end_scenario :
    (((NewScan scenarioDataset).Filter partFilter).bind ScannerBuilder.Finish).map
        Scanner.ToTable
      = Except.ok (df1Rows.map (fun r => r ++ [(colPart, Datum.int 1)]), [file1Path]) := by
  rfl

/-- C5: partition field priority — every row a fragment scan yields carries
the partition's value for each partition field, whatever value the physical
file stores under that name. -/
theorem c5_partition_field_priority :
    ∀ (flt : Expression) (fr : FileFragment) (rows : List Row) (r : Row)
      (n : String) (d : Datum),
      scanFragment flt fr = some rows → r ∈ rows →
      lookupField fr.assignment n = some d →
      getField r n = d := by
  intro flt fr rows r n d hscan hmem hlook
  simp only [scanFragment] at hscan
  split at hscan
  · exact absurd hscan (by simp)
  · injection hscan with hscan
    subst hscan
    obtain ⟨hmap, _⟩ := List.mem_filter.1 hmem
    obtain ⟨phys, _, hr⟩ := List.mem_map.1 hmap
    subst hr
    unfold reconcileRow getField
    rw [lookupField_append_left hlook]
    rfl

/-- String value stored by the physical file of the c5 witness. -/
def zstr : String := "z"

/-- Physical row of the c5 witness file: it stores `part = 7`, colliding with
the partition field. -/
def c5physRow : Row := [(colPart, Datum.int 7), (colChr, Datum.str zstr)]

/-- The c5 witness file under root/1/. -/
def c5file : FSFile := FSFile.mk ["1"] fileName1 [c5physRow]

/-- The c5 witness fragment: its partition assignment says `part = 1`. -/
def c5frag : FileFragment := FileFragment.mk c5file [(colPart, Datum.int 1)]

/-- The row the c5 witness scan yields. -/
def c5row : Row := reconcileRow [(colPart, Datum.int 1)] c5physRow

/-- Witness for c5_partition_field_priority: the file stores `part = 7` but
the scanned row carries the partition's `part = 1`. -/
theorem c5_partition_field_priority_witness :
    scanFragment Expression.tru c5frag = some [c5row] ∧
    c5row ∈ [c5row] ∧
    lookupField c5frag.assignment colPart = some (Datum.int 1) ∧
    getField c5row colPart = Datum.int 1 :=
  ⟨by decide, by decide, by decide,
    c5_partition_field_priority Expression.tru c5frag [c5row] c5row colPart (Datum.int 1)
      (by decide) (by decide) (by decide)⟩

/-- C6: build-time rejection — a filter referencing a column missing from the
dataset's schema (and a projection naming an unknown column) fails at
`Filter`/`Project` with a validation error; the outcome is the same whatever
fragments the dataset holds, so no fragment or source is touched and no I/O
happens. -/
theorem c6_build_time_rejection :
    ∀ (frags frags' : List FileFragment) (schema : List String) (e : Expression)
      (names : List String),
      (e.fieldRefs.all (fun n => schema.contains n)) = false →
      (names.all (fun n => schema.contains n)) = false →
      (NewScan (DiscoveredDataset.mk frags schema)).Filter e
          = Except.error errUnknownFilterColumn ∧
      (NewScan (DiscoveredDataset.mk frags schema)).Filter e
          = (NewScan (DiscoveredDataset.mk frags' schema)).Filter e ∧
      (NewScan (DiscoveredDataset.mk frags schema)).Project names
          = Except.error errUnknownProjectionColumn := by
  intro frags frags' schema e names hf hp
  have hf2 : ¬ ∀ n ∈ e.fieldRefs, n ∈ schema := by simpa using hf
  have hp2 : ¬ ∀ n ∈ names, n ∈ schema := by simpa using hp
  refine ⟨?_, ?_, ?_⟩ <;>
    simp [NewScan, ScannerBuilder.Filter, ScannerBuilder.Project, hf2, hp2]

/-- Schema column of the c6 witness. -/
def colA : String := "a"

/-- Unknown column referenced by the c6 witness filter. -/
def colB : String := "b"

/-- The c6 witness filter referencing the unknown column. -/
def c6filter : Expression := .cmp .eq colB (.int 0)

/-- Witness for c6_build_time_rejection: schema `[a]`, filter on `b`,
projection of `b`. -/
theorem c6_build_time_rejection_witness :
    (Expression.fieldRefs c6filter).all (fun n => [colA].contains n) = false ∧
    ([colB].all (fun n => [colA].contains n)) = false ∧
    ((NewScan (DiscoveredDataset.mk [] [colA])).Filter c6filter
        = Except.error errUnknownFilterColumn ∧
      (NewScan (DiscoveredDataset.mk [] [colA])).Filter c6filter
        = (NewScan (DiscoveredDataset.mk [c5frag] [colA])).Filter c6filter ∧
      (NewScan (DiscoveredDataset.mk [] [colA])).Project [colB]
        = Except.error errUnknownProjectionColumn) :=
  ⟨by decide, by decide,
    c6_build_time_rejection [] [c5frag] [colA] c6filter [colB] (by decide) (by decide)⟩

/-- C7: order determinism — for any two completion orders of the fragment
scan tasks (any permutations of the task indices), the re-sequenced
`ToTable` output is identical, and equals the sequential discovery-order
table: row order depends only on discovery order (and each fragment's own
read order), never on completion order or the degree of parallelism. -/
theorem c7_order_determinism :
    ∀ (flt : Expression) (proj : List String) (frags : List FileFragment)
      (s1 s2 : List Nat),
      s1.Perm (List.range frags.length) → s2.Perm (List.range frags.length) →
      ToTablePar flt proj frags s1 = ToTablePar flt proj frags s2 ∧
      ToTablePar flt proj frags s1 = (ScanWithLog flt proj frags).fst := by
  intro flt proj frags s1 s2 h1 h2
  have e1 := par_eq_seq flt proj frags s1 h1
  have e2 := par_eq_seq flt proj frags s2 h2
  exact ⟨e1.trans e2.symm, e1⟩

/-- Witness for c7_order_determinism: the scenario fragments under the two
completion orders of their two scan tasks. -/
theorem c7_order_determinism_witness :
    ([1, 0] : List Nat).Perm (List.range scenarioDataset.fragments.length) ∧
    ([0, 1] : List Nat).Perm (List.range scenarioDataset.fragments.length) ∧
    (ToTablePar partFilter [colPart] scenarioDataset.fragments [1, 0]
        = ToTablePar partFilter [colPart] scenarioDataset.fragments [0, 1] ∧
      ToTablePar partFilter [colPart] scenarioDataset.fragments [1, 0]
        = (ScanWithLog partFilter [colPart] scenarioDataset.fragments).fst) :=
  ⟨by decide, by decide,
    c7_order_determinism partFilter [colPart] scenarioDataset.fragments [1, 0] [0, 1]
      (by decide) (by decide)⟩

/-- C9: `SimpleDataFragment::splittable()` returns false for every
SimpleDataFragment, whatever record batches and scan options it was
constructed from; in the embedding it is a constant function, so its value is
a static hint not recomputed from the fragment's state (`dataset.h`
line 82). -/
theorem c9_simple_fragment_not_splittable :
    ∀ (rb : List RecordBatch) (so : Option ScanOptions),
      (SimpleDataFragment.mk rb so).splittable = false :=
  fun _ _ => rfl

/-- C10: null `scan_options` and null `partition_expression` are legal at the
public interface (`dataset.h` lines 47-51 and 55-59): a fragment scanned with
null scan options yields all its batches' rows with no filtering and no
schema reconciliation; a fragment or source with null partition expression
carries no partition information, so no pruning ever applies to it and its
options pass through `AssumePartitionExpression` unchanged. -/
theorem c10_null_options_and_partition_legal :
    ∀ (batches : List RecordBatch) (opts : ScanOptions) (flt : Expression)
      (frag : DataFragment) (src : DataSource),
      frag.partition_expression = none → src.partition_expression = none →
      (SimpleDataFragment.mk batches none).ScanRows = batches.flatten ∧
      prunedUnder frag.partition_expression flt = false ∧
      src.AssumePartitionExpression opts = some opts ∧
      src.GetFragments opts = src.GetFragmentsImpl opts := by
  intro batches opts flt frag src hf hs
  refine ⟨rfl, ?_, ?_, ?_⟩
  · rw [hf]
    rfl
  · simp [DataSource.AssumePartitionExpression, hs]
  · simp [DataSource.GetFragments, DataSource.AssumePartitionExpression, hs]

/-- Witness for c10_null_options_and_partition_legal at a concrete fragment,
source and batch list. -/
theorem c10_null_options_and_partition_legal_witness :
    (DataFragment.mk none none).partition_expression = none ∧
    (DataSource.simple none [fragX]).partition_expression = none ∧
    ((SimpleDataFragment.mk [[rowX1]] none).ScanRows = [[rowX1]].flatten ∧
      prunedUnder (DataFragment.mk none none).partition_expression fX1 = false ∧
      (DataSource.simple none [fragX]).AssumePartitionExpression optsX1 = some optsX1 ∧
      (DataSource.simple none [fragX]).GetFragments optsX1 =
        (DataSource.simple none [fragX]).GetFragmentsImpl optsX1) :=
  ⟨rfl, rfl,
    c10_null_options_and_partition_legal [[rowX1]] optsX1 fX1 (DataFragment.mk none none)
      (DataSource.simple none [fragX]) rfl rfl⟩
